import Mathlib

/-!
# The `clog` logging facade: level gating, caller location, Kafka pipeline

A shallow embedding of `pkg/clog` (`clog.go`, `filehook.go`, `kafkahook.go`,
`requestidhook.go`, `traceid.go`) and `pkg/requestid`.

Conventions of the embedding

* Go `string` is `String`; byte indexing is done on the character list, which
  agrees with the byte view at every `/` (an ASCII byte never occurs inside a
  multi-byte UTF-8 sequence).
* `map[string]interface{}` is an association list `Fields`; a key is looked up
  at its first occurrence, `set` overwrites in place or appends, `delete`
  removes the key.
* A buffered channel is the list of the messages it holds (oldest first)
  together with its capacity; a channel that only gets closed is a `Bool`.
* Library code that is not part of the repository (`logrus.ParseLevel`,
  `time.Time.MarshalBinary`, `encoding/json`, the `logrus.Formatter` of the
  hook, `runtime.Caller`) is passed in: as the record `Lib`, as a field of the
  hook, or as the explicit call stack.  The theorems hold for every such
  library; the counterexamples use the concrete models given below.
* The package globals `Logger` and `kkhook` are the two fields of `State`;
  the model covers the states that `InitLog` produces, where `Logger` is
  non-nil and the Kafka hook registered in `Logger` is `kkhook` itself.
* An `error` is its message; the rendering of `%v` arguments of a message is
  left out.  A panic is reported next to the state it leaves behind.
* Output to the terminal and to the log file is not modelled.
-/

namespace Clog

/-! ## Severity levels (`logrus.Level`, a `uint32`) -/

/-- Severity as in `logrus.Level`: the smaller the number, the more severe. -/
abbrev Level := Nat

def PanicLevel : Level := 0
def FatalLevel : Level := 1
def ErrorLevel : Level := 2
def WarnLevel : Level := 3
def InfoLevel : Level := 4
def DebugLevel : Level := 5
def TraceLevel : Level := 6

/-- Library constant `logrus.AllLevels`. -/
def AllLevels : List Level :=
  [PanicLevel, FatalLevel, ErrorLevel, WarnLevel, InfoLevel, DebugLevel, TraceLevel]

/-- Body of `case logrus.PanicLevel:` of `getHookLevels` (clog.go:167-169); no fallthrough. -/
def getHookLevels.casePanic (res : List Level) : List Level :=
  res ++ [PanicLevel]

/-- Body of `case logrus.FatalLevel:` (clog.go:164-166), falling through. -/
def getHookLevels.caseFatal (res : List Level) : List Level :=
  getHookLevels.casePanic (res ++ [FatalLevel])

/-- Body of `case logrus.ErrorLevel:` (clog.go:161-163), falling through. -/
def getHookLevels.caseError (res : List Level) : List Level :=
  getHookLevels.caseFatal (res ++ [ErrorLevel])

/-- Body of `case logrus.WarnLevel:` (clog.go:158-160), falling through. -/
def getHookLevels.caseWarn (res : List Level) : List Level :=
  getHookLevels.caseError (res ++ [WarnLevel])

/-- Body of `case logrus.InfoLevel:` (clog.go:155-157), falling through. -/
def getHookLevels.caseInfo (res : List Level) : List Level :=
  getHookLevels.caseWarn (res ++ [InfoLevel])

/-- Body of `case logrus.DebugLevel:` (clog.go:152-154), falling through. -/
def getHookLevels.caseDebug (res : List Level) : List Level :=
  getHookLevels.caseInfo (res ++ [DebugLevel])

/-- Function `getHookLevels` (clog.go:149-181). -/
def getHookLevels (logLevel : Level) : List Level :=
  let res : List Level := []
  if logLevel = DebugLevel then getHookLevels.caseDebug res
  else if logLevel = InfoLevel then getHookLevels.caseInfo res
  else if logLevel = WarnLevel then getHookLevels.caseWarn res
  else if logLevel = ErrorLevel then getHookLevels.caseError res
  else if logLevel = FatalLevel then getHookLevels.caseFatal res
  else if logLevel = PanicLevel then getHookLevels.casePanic res
  else [DebugLevel, InfoLevel, WarnLevel, ErrorLevel, FatalLevel, PanicLevel]

/-- The six levels `getHookLevels` has a `case` for. -/
def recognisedLevels : List Level :=
  [DebugLevel, InfoLevel, WarnLevel, ErrorLevel, FatalLevel, PanicLevel]

/-! ## Values, field maps, entries -/

/-- A Go value stored in an `interface{}`.  `chan` stands for the values that
`encoding/json` refuses to marshal (channels, functions, complex numbers). -/
inductive Value where
  | str (s : String)
  | int (n : Int)
  | bool (b : Bool)
  | null
  | chan (id : Nat)
  deriving DecidableEq, Repr

/-- A non-nil `map[string]interface{}` (`logrus.Fields`). -/
abbrev Fields := List (String × Value)

/-- Map read `v, ok := data[key]`. -/
def Fields.get : Fields → String → Option Value
  | [], _ => none
  | (k, v) :: rest, key => if k = key then some v else Fields.get rest key

/-- The `ok` of `_, ok := data[key]`. -/
def Fields.has (data : Fields) (key : String) : Bool :=
  (Fields.get data key).isSome

/-- Map write `data[key] = v`. -/
def Fields.set : Fields → String → Value → Fields
  | [], key, v => [(key, v)]
  | (k, w) :: rest, key, v =>
    if k = key then (k, v) :: rest else (k, w) :: Fields.set rest key v

/-- The guarded write `if _, ok := data[key]; !ok { data[key] = v }`. -/
def Fields.setIfAbsent (data : Fields) (key : String) (v : Value) : Fields :=
  if !Fields.has data key then Fields.set data key v else data

/-- Builtin `delete(data, key)`. -/
def Fields.delete (data : Fields) (key : String) : Fields :=
  data.filter (fun p => !(p.1 == key))

/-- A `time.Time` value: the instant and the zone offset in seconds. -/
structure Time where
  unixNano : Int
  zoneOffset : Int
  deriving DecidableEq, Repr

/-- A tracing span as `sampledTraceIdFromContext` sees it (traceid.go:39-48). -/
structure Span where
  isJaeger : Bool
  sampled : Bool
  traceID : String
  deriving DecidableEq, Repr

/-- A non-nil `context.Context`: the value stored under `activeRequestIdKey`
and the span `opentracing.SpanFromContext` finds. -/
structure Context where
  requestId : Option Value
  span : Option Span
  deriving DecidableEq, Repr

/-- The fields of `logrus.Entry` the hooks use. -/
structure Entry where
  Data : Fields
  Time : Time
  Level : Level
  Message : String
  Context : Option Context
  deriving DecidableEq, Repr

/-- The library functions the package calls.  `MarshalBinary` yields only the
error, because `Fire` overwrites the bytes before using them. -/
structure Lib where
  ParseLevel : String → Except String Level
  MarshalBinary : Time → Option String
  jsonEncode : Fields → Except String String

/-! ## Caller location (`filehook.go`) -/

def FieldKeyFile : String := "file"
def FileHookSkip : Nat := 5
def FileHookSkipPrefix : String := "logrus"

/-- One stack frame as `runtime.Caller` reports it. -/
structure Frame where
  file : String
  line : Int
  deriving DecidableEq, Repr

/-- Library call `runtime.Caller(skip)` made inside `getCaller`: entry `skip` of
the call stack, counted from `getCaller` itself; `none` is `ok == false`. -/
def runtime.Caller (stack : List Frame) (skip : Nat) : Option Frame :=
  stack[skip]?

/-- Library call `strings.HasPrefix(s, pre)`. -/
def strings.HasPrefix (s pre : String) : Bool :=
  pre.data.isPrefixOf s.data

/-- The loop of `getCaller` (filehook.go:64-73) from loop index `i` downwards,
with `n` slashes counted so far; the loop stops at `i = 0` without looking at
`file[0]`. -/
def getCaller.trim (file : List Char) : Nat → Nat → List Char
  | 0, _ => file
  | i + 1, n =>
    if file[i + 1]? = some '/' then
      if n + 1 = 2 then file.drop (i + 2) else getCaller.trim file i (n + 1)
    else getCaller.trim file i n

/-- Function `getCaller` (filehook.go:55-76). -/
def getCaller (stack : List Frame) (skip : Nat) : String × Int :=
  match runtime.Caller stack skip with
  | none => ("", 0)
  | some fr => (String.mk (getCaller.trim fr.file.data (fr.file.data.length - 1) 0), fr.line)

/-- The loop of `findCaller` (filehook.go:45-50): `fuel` iterations are left,
`i` is the loop variable and `cur` the current `file, line`. -/
def findCaller.loop (stack : List Frame) : Nat → Nat → String × Int → String × Int
  | 0, _, cur => cur
  | fuel + 1, i, _ =>
    let cur := getCaller stack (FileHookSkip + i)
    if !strings.HasPrefix cur.1 FileHookSkipPrefix then cur
    else findCaller.loop stack fuel (i + 1) cur

/-- Function `findCaller` (filehook.go:39-53); `fmt.Sprintf("%s:%d", file, line)`
is the concatenation below. -/
def findCaller (stack : List Frame) : String :=
  let cur := findCaller.loop stack 10 0 ("", 0)
  cur.1 ++ ":" ++ toString cur.2

structure FileHook where
  Field : String
  levels : List Level
  deriving DecidableEq, Repr

/-- Function `NewFileHook` (filehook.go:22-27). -/
def NewFileHook : FileHook :=
  { Field := FieldKeyFile, levels := AllLevels }

/-- Method `FileHook.Fire` (filehook.go:33-37): the returned error and the entry
after the call. -/
def FileHook.Fire (hook : FileHook) (stack : List Frame) (entry : Entry) :
    Option String × Entry :=
  (none, { entry with Data := Fields.set entry.Data hook.Field (.str (findCaller stack)) })

/-! ## Request id and trace id hooks -/

def FieldKeyRequestId : String := "requestId"
def FieldKeyTraceId : String := "traceId"

/-- Function `requestid.FromContext` (requestid.go:13-23). -/
def requestid.FromContext (ctx : Option Context) : String :=
  match ctx with
  | none => ""
  | some c =>
    match c.requestId with
    | some (.str val) => val
    | _ => ""

/-- Method `RequestIdHook.Fire` (requestidhook.go:26-33). -/
def RequestIdHook.Fire (entry : Entry) : Option String × Entry :=
  let requestId := requestid.FromContext entry.Context
  if requestId ≠ "" then
    (none, { entry with Data := Fields.set entry.Data FieldKeyRequestId (.str requestId) })
  else (none, entry)

/-- Function `sampledTraceIdFromContext` (traceid.go:38-48). -/
def sampledTraceIdFromContext (ctx : Option Context) : String :=
  match ctx with
  | none => ""
  | some c =>
    match c.span with
    | some sp => if sp.isJaeger && sp.sampled then sp.traceID else ""
    | none => ""

/-- Method `TraceIdHook.Fire` (traceid.go:29-36). -/
def TraceIdHook.Fire (entry : Entry) : Option String × Entry :=
  let traceId := sampledTraceIdFromContext entry.Context
  if traceId ≠ "" then
    (none, { entry with Data := Fields.set entry.Data FieldKeyTraceId (.str traceId) })
  else (none, entry)

/-! ## The Kafka hook (`kafkahook.go`) -/

def kkEventChanSize : Nat := 1024
def kkLogChanSize : Nat := 2048

/-- Library type `sarama.ProducerMessage`: topic and encoded value. -/
structure ProducerMessage where
  Topic : String
  Value : String
  deriving DecidableEq, Repr

/-- What the package observes of a `sarama.AsyncProducer`: the messages written
to `Input()` so far and whether `AsyncClose` was called. -/
structure AsyncProducer where
  input : List ProducerMessage
  closed : Bool
  deriving DecidableEq, Repr

/-- Type `KafkaHook` (kafkahook.go:16-30).  `eventChan` and `logChan` hold the
buffered messages, oldest first; `closing` is true once the channel `closing`
has been closed; `kkCli = none` is the nil interface. -/
structure KafkaHook where
  levels : List Level
  Formatter : Entry → Except String String
  kkCli : Option AsyncProducer
  eventTopic : String
  logTopic : String
  eventChan : List ProducerMessage
  logChan : List ProducerMessage
  closing : Bool
  processName : String
  hostName : String
  nodeName : String

/-- Function `NewKafakaHook` (kafkahook.go:32-70); `Except.error` is the panic. -/
def NewKafakaHook (levels : List Level) (formatter : Entry → Except String String)
    (kkCli : Option AsyncProducer) (eventTopic logTopic processName hostName nodeName : String) :
    Except String KafkaHook :=
  match kkCli with
  | none => .error "nil kkCli"
  | some cli =>
    .ok { levels := levels, Formatter := formatter, kkCli := some cli,
          eventTopic := eventTopic, logTopic := logTopic,
          eventChan := [], logChan := [], closing := false,
          processName := processName, hostName := hostName, nodeName := nodeName }

/-- Method `KafkaHook.Levels` (kafkahook.go:163-165). -/
def KafkaHook.Levels (kh : KafkaHook) : List Level :=
  kh.levels

/-- Result of `KafkaHook.Fire`: the returned error, the hook and the entry after the call. -/
structure FireResult where
  err : Option String
  kh : KafkaHook
  entry : Entry

/-- The three guarded writes of `Fire` (kafkahook.go:127-140): the map that
`kh.Formatter.Format` is given. -/
def KafkaHook.Fire.enrich (kh : KafkaHook) (data : Fields) : Fields :=
  let d1 := Fields.setIfAbsent data "nodename" (.str kh.nodeName)
  let d2 := Fields.setIfAbsent d1 "host" (.str kh.hostName)
  Fields.setIfAbsent d2 "process" (.str kh.processName)

/-- The deferred `delete` calls of `Fire` (kafkahook.go:129, 134, 139), run in
reverse order of registration on return; `data` is the map on entry, `cur`
the map on return. -/
def KafkaHook.Fire.deferred (kh : KafkaHook) (data cur : Fields) : Fields :=
  let addNode := !Fields.has data "nodename"
  let d1 := Fields.setIfAbsent data "nodename" (.str kh.nodeName)
  let addHost := !Fields.has d1 "host"
  let d2 := Fields.setIfAbsent d1 "host" (.str kh.hostName)
  let addProcess := !Fields.has d2 "process"
  let r1 := if addProcess then Fields.delete cur "process" else cur
  let r2 := if addHost then Fields.delete r1 "host" else r1
  if addNode then Fields.delete r2 "nodename" else r2

/-- Method `KafkaHook.Fire` (kafkahook.go:113-161).  Both `select` statements
have a `default`, so no branch waits. -/
def KafkaHook.Fire (lib : Lib) (kh : KafkaHook) (entry : Entry) : FireResult :=
  match kh.kkCli with
  | none => { err := none, kh := kh, entry := entry }
  | some _ =>
    match lib.MarshalBinary entry.Time with
    | some err => { err := some err, kh := kh, entry := entry }
    | none =>
      let data := KafkaHook.Fire.enrich kh entry.Data
      let after : Entry :=
        { entry with Data := KafkaHook.Fire.deferred kh entry.Data data }
      match kh.Formatter { entry with Data := data } with
      | .error err => { err := some err, kh := kh, entry := after }
      | .ok bt =>
        if kh.closing then { err := none, kh := kh, entry := after }
        else if kh.logChan.length < kkLogChanSize then
          { err := none,
            kh := { kh with logChan := kh.logChan ++ [{ Topic := kh.logTopic, Value := bt }] },
            entry := after }
        else { err := none, kh := kh, entry := after }

/-! ## The logger as the package uses it -/

/-- The global `Logger`: its level.  Its hooks are those `InitLog` adds
(clog.go:73-82): file, request id, trace id, and `kkhook` when there is one. -/
structure Logger where
  Level : Level
  deriving DecidableEq, Repr

/-- What the runtime supplies to one logging call: the clock reading and the
call stack seen from `getCaller`. -/
structure LogCall where
  now : Time
  stack : List Frame
  deriving DecidableEq, Repr

/-- The hooks registered for every level, fired in the order they were added
(clog.go:73-75). -/
def metadataHooks (stack : List Frame) (entry : Entry) : Entry :=
  (TraceIdHook.Fire (RequestIdHook.Fire (FileHook.Fire NewFileHook stack entry).2).2).2

/-- Library method `LevelHooks.Fire` as far as it concerns the Kafka hook: the
hook is registered once for every occurrence of the level in `kh.Levels()`
(`LevelHooks.Add`), the `n` registrations fire in turn on the same entry, and
the first error ends the loop. -/
def Logger.fireKafka (lib : Lib) : Nat → KafkaHook → Entry → KafkaHook
  | 0, kh, _ => kh
  | n + 1, kh, entry =>
    match (KafkaHook.Fire lib kh entry).err with
    | some _ => (KafkaHook.Fire lib kh entry).kh
    | none =>
      Logger.fireKafka lib n (KafkaHook.Fire lib kh entry).kh (KafkaHook.Fire lib kh entry).entry

/-- Library call `Logger.Logf(level, ...)` as far as it reaches the Kafka hook
`kh` registered in the logger: when the level is enabled a fresh entry is
built, the metadata hooks run, then the registrations of `kh` for that level;
an error of a hook is only printed.  Writing the entry to the log file is not
modelled. -/
def Logger.Logf (lib : Lib) (lg : Logger) (kh : KafkaHook) (call : LogCall)
    (level : Clog.Level) (msg : String) : KafkaHook :=
  if level ≤ lg.Level then
    let entry : Entry :=
      metadataHooks call.stack
        { Data := [], Time := call.now, Level := level, Message := msg, Context := none }
    Logger.fireKafka lib (kh.Levels.count level) kh entry
  else kh

/-- Proof notion: `kh2` differs from `kh` at most in its log queue, not at all
when `kh` is closing, and its log queue is within capacity if that of `kh` is. -/
def KafkaHook.LogOnly (kh kh2 : KafkaHook) : Prop :=
  kh2.eventChan = kh.eventChan ∧ kh2.closing = kh.closing ∧ kh2.eventTopic = kh.eventTopic ∧
  (kh.closing = true → kh2 = kh) ∧
  (kh.logChan.length ≤ kkLogChanSize → kh2.logChan.length ≤ kkLogChanSize)

/-! ## Events (`clog.go`, `kafkahook.go`) -/

/-- Function `formatJSON` (clog.go:183-190). -/
def formatJSON (lib : Lib) (data : Fields) : Except String String :=
  match lib.jsonEncode data with
  | .error err => .error ("Failed to marshal fields to JSON, " ++ err ++ "\n")
  | .ok b => .ok b

/-- Result of `FireEvent`: the returned error, the hook after the call and the
caller's map after the call. -/
structure FireEventResult where
  err : Option String
  kh : KafkaHook
  data : Fields

/-- The three guarded writes of `FireEvent` (kafkahook.go:74-84): the map that
`formatJSON` is given. -/
def KafkaHook.FireEvent.enrich (kh : KafkaHook) (data : Fields) : Fields :=
  let d1 := Fields.setIfAbsent data "host" (.str kh.hostName)
  let d2 := Fields.setIfAbsent d1 "process" (.str kh.processName)
  Fields.setIfAbsent d2 "nodename" (.str kh.nodeName)

/-- Method `KafkaHook.FireEvent` (kafkahook.go:73-111), called on the hook that
is registered in the logger `lg`.  Both `select` statements have a `default`,
so no branch waits. -/
def KafkaHook.FireEvent (lib : Lib) (lg : Logger) (kh : KafkaHook) (data : Fields)
    (call : LogCall) : FireEventResult :=
  let data := KafkaHook.FireEvent.enrich kh data
  match formatJSON lib data with
  | .error err =>
    let kh := Logger.Logf lib lg kh call ErrorLevel ("log event error: " ++ err)
    { err := some err, kh := kh, data := data }
  | .ok bt =>
    let kh := Logger.Logf lib lg kh call DebugLevel ("sending log event: " ++ bt)
    if kh.closing then { err := none, kh := kh, data := data }
    else if kh.eventChan.length < kkEventChanSize then
      { err := none,
        kh := { kh with eventChan := kh.eventChan ++ [{ Topic := kh.eventTopic, Value := bt }] },
        data := data }
    else { err := none, kh := kh, data := data }

/-- The package globals `Logger` and `kkhook`. -/
structure State where
  Logger : Logger
  kkhook : Option KafkaHook

/-- Result of `LogEvent`: the returned error, the globals and the caller's map
after the call. -/
structure LogEventResult where
  err : Option String
  st : State
  data : Fields

/-- Function `LogEvent` (clog.go:92-110); `intn` is the value `rand.Intn(10)`
returns if it is called. -/
def LogEvent (lib : Lib) (st : State) (data : Fields) (needFilter : Bool) (intn : Nat)
    (call : LogCall) : LogEventResult :=
  match st.kkhook with
  | none => { err := none, st := st, data := data }
  | some kh =>
    if !Fields.has data "event_type" then { err := none, st := st, data := data }
    else if needFilter && intn != 0 then { err := none, st := st, data := data }
    else
      let r := KafkaHook.FireEvent lib st.Logger kh data call
      { err := r.err, st := { st with kkhook := some r.kh }, data := r.data }

/-- Function `OnReloadLogLevel` (clog.go:192-204): the returned error and the
globals after the call. -/
def OnReloadLogLevel (lib : Lib) (st : State) (value : Value) : Option String × State :=
  match value with
  | .str levelStr =>
    match lib.ParseLevel levelStr with
    | .error err => (some ("parse log level falied, level=panic: " ++ err), st)
    | .ok logLevel => (none, { st with Logger := { st.Logger with Level := logLevel } })
  | _ => (some "type assert failed", st)

/-! ## Shutdown -/

/-- Which `case` of the `select` in `dispatchMessages` fires. -/
inductive Pick where
  | event
  | log
  deriving DecidableEq, Repr

/-- One iteration of the loop of `dispatchMessages` (kafkahook.go:205-214) that
receives from the picked queue and writes the message to the producer input;
nothing happens when that queue is empty. -/
def KafkaHook.dispatchMessages.step (kh : KafkaHook) (p : Pick) : KafkaHook :=
  match kh.kkCli with
  | none => kh
  | some cli =>
    match p with
    | .event =>
      match kh.eventChan with
      | [] => kh
      | msg :: rest =>
        { kh with eventChan := rest, kkCli := some { cli with input := cli.input ++ [msg] } }
    | .log =>
      match kh.logChan with
      | [] => kh
      | msg :: rest =>
        { kh with logChan := rest, kkCli := some { cli with input := cli.input ++ [msg] } }

/-- Result of `Close`: the panic, if one was raised, and the hook afterwards. -/
structure CloseResult where
  panic : Option String
  kh : KafkaHook

/-- Method `KafkaHook.Close` (kafkahook.go:167-182).  Closing a channel that is
already closed panics.  `picks` are the iterations the dispatch loop still
runs before its `select` takes the closing case; `dispatachWg.Wait()` returns
after them. -/
def KafkaHook.Close (kh : KafkaHook) (picks : List Pick) : CloseResult :=
  if kh.closing then { panic := some "close of closed channel", kh := kh }
  else
    let kh := { kh with closing := true }
    let kh := picks.foldl KafkaHook.dispatchMessages.step kh
    match kh.kkCli with
    | none => { panic := some "invalid memory address or nil pointer dereference", kh := kh }
    | some cli => { panic := none, kh := { kh with kkCli := some { cli with closed := true } } }

/-- Result of `GracefulStop`: the panic, if one was raised, and the globals afterwards. -/
structure StopResult where
  panic : Option String
  st : State

/-- Function `GracefulStop` (clog.go:210-214). -/
def GracefulStop (st : State) (picks : List Pick) : StopResult :=
  match st.kkhook with
  | some kh =>
    let r := KafkaHook.Close kh picks
    { panic := r.panic, st := { st with kkhook := some r.kh } }
  | none => { panic := none, st := st }

/-- A call made on the pipeline, or one iteration of its dispatch loop. -/
inductive Op where
  | fireEvent (data : Fields) (call : LogCall)
  | fire (entry : Entry)
  | dispatch (p : Pick)

/-- The hook after one operation. -/
def KafkaHook.step (lib : Lib) (lg : Logger) (kh : KafkaHook) : Op → KafkaHook
  | .fireEvent data call => (KafkaHook.FireEvent lib lg kh data call).kh
  | .fire entry => (KafkaHook.Fire lib kh entry).kh
  | .dispatch p => KafkaHook.dispatchMessages.step kh p

/-- The hook after a sequence of operations. -/
def KafkaHook.run (lib : Lib) (lg : Logger) (kh : KafkaHook) (ops : List Op) : KafkaHook :=
  ops.foldl (KafkaHook.step lib lg) kh

/-! ## Specification-side definitions -/

/-- Spec wording, "identity enrichment only fills gaps": in `m` each of the keys
host, process and nodename has the value it has in `data` when `data` has the
key and else the identity value of the hook, and every other key reads in `m`
as it reads in `data`. -/
def FillsGaps (kh : KafkaHook) (data m : Fields) : Prop :=
  (Fields.get m "host" =
    if Fields.has data "host" then Fields.get data "host" else some (.str kh.hostName)) ∧
  (Fields.get m "process" =
    if Fields.has data "process" then Fields.get data "process"
    else some (.str kh.processName)) ∧
  (Fields.get m "nodename" =
    if Fields.has data "nodename" then Fields.get data "nodename"
    else some (.str kh.nodeName)) ∧
  (∀ key : String, key ≠ "host" → key ≠ "process" → key ≠ "nodename" →
    Fields.get m key = Fields.get data key)

/-- Spec wording: the components of a path, the runs of characters between
its slashes. -/
def pathComponents : List Char → List (List Char)
  | [] => [[]]
  | c :: cs =>
    if c = '/' then [] :: pathComponents cs
    else
      match pathComponents cs with
      | [] => [[c]]
      | h :: t => (c :: h) :: t

/-- Spec wording: a path "trimmed to its last two components (directory/file)". -/
def lastTwoComponents (path : String) : String :=
  match (pathComponents path.data).reverse with
  | base :: dir :: _ => String.mk (dir ++ '/' :: base)
  | [base] => String.mk base
  | [] => ""

/-- Spec wording: the file name of a path, its last component. -/
def fileName (path : String) : String :=
  match (pathComponents path.data).reverse with
  | base :: _ => String.mk base
  | [] => ""

/-- The paths whose second-to-last slash is their first character, such as
`/logrus/entry.go`: a leading slash followed by exactly one more slash. -/
def secondSlashLeads (path : String) : Bool :=
  match path.data with
  | '/' :: rest => rest.count '/' == 1
  | _ => false

/-- The loop of `getCaller` restated for proofs: `rfront` is the part of the file
name still to be scanned, last character first, and `back` the part already
scanned; the first character of the file name is never looked at. -/
def getCaller.scan : List Char → List Char → Nat → List Char
  | [], back, _ => back
  | c :: rest, back, n =>
    if rest = [] then c :: back
    else if c = '/' then
      if n + 1 = 2 then back else getCaller.scan rest (c :: back) (n + 1)
    else getCaller.scan rest (c :: back) n

/-- The same call when the logging engine is built from the top-level directory
`/logrus`. -/
def rootStack : List Frame :=
  [⟨"/home/dev/clog/filehook.go", 59⟩, ⟨"/home/dev/clog/filehook.go", 46⟩,
   ⟨"/home/dev/clog/filehook.go", 34⟩, ⟨"/logrus/hooks.go", 28⟩,
   ⟨"/logrus/entry.go", 272⟩, ⟨"/logrus/entry.go", 241⟩,
   ⟨"/logrus/entry.go", 287⟩, ⟨"/logrus/entry.go", 331⟩,
   ⟨"/logrus/logger.go", 154⟩, ⟨"/logrus/logger.go", 178⟩,
   ⟨"/home/dev/app/main.go", 20⟩, ⟨"/usr/local/go/src/runtime/proc.go", 250⟩]

/-- A stack that ends before depth 5. -/
def shallowStack : List Frame :=
  [⟨"/home/dev/clog/filehook.go", 59⟩, ⟨"/home/dev/clog/filehook.go", 46⟩,
   ⟨"/home/dev/app/main.go", 7⟩]

/-! ## Concrete library models used in the examples -/

/-- Model of library function `strings.ToLower` on ASCII letters. -/
def strings.ToLower (s : String) : String :=
  String.mk (s.data.map Char.toLower)

/-- Model of library function `logrus.ParseLevel`. -/
def logrus.ParseLevel (lvl : String) : Except String Level :=
  let l := strings.ToLower lvl
  if l = "panic" then .ok PanicLevel
  else if l = "fatal" then .ok FatalLevel
  else if l = "error" then .ok ErrorLevel
  else if l = "warn" ∨ l = "warning" then .ok WarnLevel
  else if l = "info" then .ok InfoLevel
  else if l = "debug" then .ok DebugLevel
  else if l = "trace" then .ok TraceLevel
  else .error ("not a valid logrus Level: " ++ lvl)

/-- Whether `encoding/json` can marshal the value. -/
def json.supported : Value → Bool
  | .chan _ => false
  | _ => true

/-- JSON text of a supported value (strings are written without escaping). -/
def json.valueText : Value → String
  | .str s => "\"" ++ s ++ "\""
  | .int n => toString n
  | .bool b => if b then "true" else "false"
  | .null => "null"
  | .chan _ => ""

/-- JSON text of the members of an object, in the order of the list. -/
def json.membersText : Fields → String
  | [] => ""
  | [(k, v)] => "\"" ++ k ++ "\":" ++ json.valueText v
  | (k, v) :: rest => "\"" ++ k ++ "\":" ++ json.valueText v ++ "," ++ json.membersText rest

/-- Model of `json.NewEncoder(b).Encode(data)` for a map: an error when a value
cannot be marshalled, else the object followed by a newline.  The text is a
simplified rendering; what the examples use is whether encoding succeeds. -/
def json.Encode (data : Fields) : Except String String :=
  if data.all (fun p => json.supported p.2) then
    .ok ("\x7b" ++ json.membersText data ++ "\x7d\n")
  else .error "json: unsupported type: chan int"

/-- Model of library method `Level.String`. -/
def logrus.levelText (level : Level) : String :=
  if level = TraceLevel then "trace"
  else if level = DebugLevel then "debug"
  else if level = InfoLevel then "info"
  else if level = WarnLevel then "warning"
  else if level = ErrorLevel then "error"
  else if level = FatalLevel then "fatal"
  else if level = PanicLevel then "panic"
  else "unknown"

/-- Model of `(&logrus.JSONFormatter{}).Format`, the formatter `initKafkaHook`
installs (clog.go:136): the entry's fields with level, message and time added,
or an error when a field cannot be marshalled.  The time is written as its
number of nanoseconds and name clashes of fields are not resolved. -/
def logrus.JSONFormatter (entry : Entry) : Except String String :=
  match json.Encode (entry.Data ++ [("level", .str (logrus.levelText entry.Level)),
      ("msg", .str entry.Message), ("time", .int entry.Time.unixNano)]) with
  | .ok b => .ok b
  | .error err => .error ("failed to marshal fields to JSON, " ++ err)

/-- The library model used in the examples: times with a whole-minute zone
offset marshal. -/
def goLib : Lib :=
  { ParseLevel := logrus.ParseLevel,
    MarshalBinary := fun t =>
      if t.zoneOffset % 60 = 0 then none
      else some "Time.MarshalBinary: zone offset has fractional minute",
    jsonEncode := json.Encode }

/-- A producer message used to fill queues in the examples. -/
def demoMsg : ProducerMessage :=
  { Topic := "event", Value := "x" }

/-- A producer that has received nothing yet. -/
def demoProducer : AsyncProducer :=
  { input := [], closed := false }

/-- The hook `initKafkaHook` builds for minimum severity debug: running, both
queues empty. -/
def demoHook : KafkaHook :=
  { levels := getHookLevels DebugLevel, Formatter := logrus.JSONFormatter,
    kkCli := some demoProducer, eventTopic := "event", logTopic := "log",
    eventChan := [], logChan := [], closing := false,
    processName := "server", hostName := "host-1", nodeName := "node-1" }

/-- The same hook with both queues filled to capacity. -/
def fullHook : KafkaHook :=
  { demoHook with eventChan := List.replicate 1024 demoMsg,
                  logChan := List.replicate 2048 demoMsg }

/-- The same hook after `Close`: the closing signal is raised. -/
def closingHook : KafkaHook :=
  { demoHook with closing := true, kkCli := some { demoProducer with closed := true } }

/-- A logger at level debug. -/
def demoLogger : Logger :=
  { Level := DebugLevel }

/-- Globals after `InitLog` with a broker configured. -/
def demoState : State :=
  { Logger := demoLogger, kkhook := some demoHook }

/-- The stack of `Logger.Errorf` called at `/home/dev/app/main.go:20`, seen from
`getCaller`: three frames of `filehook.go`, seven of logrus, then the caller. -/
def demoStack : List Frame :=
  [⟨"/home/dev/clog/filehook.go", 59⟩, ⟨"/home/dev/clog/filehook.go", 46⟩,
   ⟨"/home/dev/clog/filehook.go", 34⟩, ⟨"/go/pkg/mod/logrus@v1.4.6/hooks.go", 28⟩,
   ⟨"/go/pkg/mod/logrus@v1.4.6/entry.go", 272⟩, ⟨"/go/pkg/mod/logrus@v1.4.6/entry.go", 241⟩,
   ⟨"/go/pkg/mod/logrus@v1.4.6/entry.go", 287⟩, ⟨"/go/pkg/mod/logrus@v1.4.6/entry.go", 331⟩,
   ⟨"/go/pkg/mod/logrus@v1.4.6/logger.go", 154⟩, ⟨"/go/pkg/mod/logrus@v1.4.6/logger.go", 178⟩,
   ⟨"/home/dev/app/main.go", 20⟩, ⟨"/usr/local/go/src/runtime/proc.go", 250⟩]

/-- A clock reading and call stack for a logging call. -/
def demoCall : LogCall :=
  { now := { unixNano := 1700000000000000000, zoneOffset := 0 }, stack := demoStack }

/-- A log entry at level error with one field. -/
def demoEntry : Entry :=
  { Data := [("user", .str "u1")], Time := { unixNano := 1700000000000000000, zoneOffset := 0 },
    Level := ErrorLevel, Message := "boom", Context := none }

/-! ## Lemmas on field maps -/

theorem Fields.get_set_self (data : Fields) (key : String) (v : Value) :
    Fields.get (Fields.set data key v) key = some v := by
  induction data with
  | nil => simp [Fields.set, Fields.get]
  | cons p rest ih =>
    obtain ⟨k, w⟩ := p
    by_cases h : k = key
    · simp [Fields.set, Fields.get, h]
    · simp [Fields.set, Fields.get, h, ih]

theorem Fields.get_set_of_ne (data : Fields) (key other : String) (v : Value)
    (hne : other ≠ key) :
    Fields.get (Fields.set data key v) other = Fields.get data other := by
  induction data with
  | nil =>
    have : ¬ key = other := fun h => hne h.symm
    simp [Fields.set, Fields.get, this]
  | cons p rest ih =>
    obtain ⟨k, w⟩ := p
    by_cases h : k = key
    · subst h
      have : ¬ k = other := fun h => hne h.symm
      simp [Fields.set, Fields.get, this]
    · by_cases h2 : k = other
      · subst h2
        simp [Fields.set, Fields.get, h]
      · simp [Fields.set, Fields.get, h, h2, ih]

theorem Fields.get_of_has_false (data : Fields) (key : String)
    (h : Fields.has data key = false) : Fields.get data key = none := by
  simpa [Fields.has] using h

/-- Reading a map after the guarded write. -/
theorem Fields.get_fill (data : Fields) (key other : String) (v : Value) :
    Fields.get (Fields.setIfAbsent data key v) other =
      if Fields.has data other then Fields.get data other
      else if other = key then some v else none := by
  unfold Fields.setIfAbsent
  by_cases hk : Fields.has data key = true
  · by_cases ho : Fields.has data other = true
    · simp [hk, ho]
    · have ho2 : Fields.has data other = false := by simpa using ho
      have hne : other ≠ key := by
        intro h
        rw [h] at ho2
        rw [hk] at ho2
        exact Bool.noConfusion ho2
      simp [hk, ho2, hne, Fields.get_of_has_false data other ho2]
  · have hk2 : Fields.has data key = false := by simpa using hk
    by_cases hne : other = key
    · subst hne
      simp [hk2, Fields.get_set_self]
    · by_cases ho : Fields.has data other = true
      · simp [hk2, ho, hne, Fields.get_set_of_ne data key other v hne]
      · have ho2 : Fields.has data other = false := by simpa using ho
        simp [hk2, ho2, hne, Fields.get_set_of_ne data key other v hne,
          Fields.get_of_has_false data other ho2]

/-- The same for the `ok` of a read. -/
theorem Fields.has_fill (data : Fields) (key other : String) (v : Value) :
    Fields.has (Fields.setIfAbsent data key v) other =
      (Fields.has data other || decide (other = key)) := by
  show (Fields.get _ other).isSome = _
  rw [Fields.get_fill]
  by_cases ho : (Fields.get data other).isSome = true
  · simp [Fields.has, ho]
  · have ho2 : (Fields.get data other).isSome = false := by simpa using ho
    by_cases hne : other = key
    · subst hne
      simp [Fields.has, ho2]
    · simp [Fields.has, ho2, hne]

theorem FireEvent_enrich_get (kh : KafkaHook) (data : Fields) (key : String) :
    Fields.get (KafkaHook.FireEvent.enrich kh data) key =
      if Fields.has data key then Fields.get data key
      else if key = "host" then some (.str kh.hostName)
      else if key = "process" then some (.str kh.processName)
      else if key = "nodename" then some (.str kh.nodeName) else none := by
  unfold KafkaHook.FireEvent.enrich
  simp only [Fields.get_fill, Fields.has_fill]
  by_cases h : Fields.has data key = true
  · simp [h]
  · have h2 : Fields.has data key = false := by simpa using h
    by_cases k1 : key = "host"
    · subst k1
      simp [h2]
    · by_cases k2 : key = "process"
      · subst k2
        simp [h2]
      · simp [h2, k1, k2]

theorem Fire_enrich_get (kh : KafkaHook) (data : Fields) (key : String) :
    Fields.get (KafkaHook.Fire.enrich kh data) key =
      if Fields.has data key then Fields.get data key
      else if key = "nodename" then some (.str kh.nodeName)
      else if key = "host" then some (.str kh.hostName)
      else if key = "process" then some (.str kh.processName) else none := by
  unfold KafkaHook.Fire.enrich
  simp only [Fields.get_fill, Fields.has_fill]
  by_cases h : Fields.has data key = true
  · simp [h]
  · have h2 : Fields.has data key = false := by simpa using h
    by_cases k1 : key = "nodename"
    · subst k1
      simp [h2]
    · by_cases k2 : key = "host"
      · subst k2
        simp [h2]
      · simp [h2, k1, k2]

theorem FillsGaps_of_get (kh : KafkaHook) (data m : Fields)
    (h : ∀ key : String, Fields.get m key =
      if Fields.has data key then Fields.get data key
      else if key = "host" then some (.str kh.hostName)
      else if key = "process" then some (.str kh.processName)
      else if key = "nodename" then some (.str kh.nodeName) else none) :
    FillsGaps kh data m := by
  refine ⟨?_, ?_, ?_, ?_⟩
  · rw [h]; simp
  · rw [h]
    by_cases hh : Fields.has data "process" = true
    · simp [hh]
    · simp [hh]
  · rw [h]
    by_cases hh : Fields.has data "nodename" = true
    · simp [hh]
    · simp [hh]
  · intro key k1 k2 k3
    rw [h]
    by_cases hh : Fields.has data key = true
    · simp [hh]
    · have h2 : Fields.has data key = false := by simpa using hh
      simp [h2, k1, k2, k3, Fields.get_of_has_false data key h2]

/-! ## Lemmas on the hook -/

/-- What `Fire` does to the hook: nothing, or one message appended to the log
queue of a hook that is not closing and has room. -/
theorem KafkaHook.Fire_kh (lib : Lib) (kh : KafkaHook) (entry : Entry) :
    (KafkaHook.Fire lib kh entry).kh = kh ∨
    (kh.closing = false ∧ kh.logChan.length < kkLogChanSize ∧
      ∃ m, (KafkaHook.Fire lib kh entry).kh = { kh with logChan := kh.logChan ++ [m] }) := by
  unfold KafkaHook.Fire
  split
  · exact Or.inl rfl
  · split
    · exact Or.inl rfl
    · dsimp only
      split
      · exact Or.inl rfl
      · split
        · exact Or.inl rfl
        · rename_i hcl
          split
          · rename_i hlen
            exact Or.inr ⟨by simpa using hcl, hlen, _, rfl⟩
          · exact Or.inl rfl

theorem KafkaHook.LogOnly_refl (kh : KafkaHook) : KafkaHook.LogOnly kh kh :=
  ⟨rfl, rfl, rfl, fun _ => rfl, fun h => h⟩

theorem KafkaHook.LogOnly_trans (a b c : KafkaHook) (hab : KafkaHook.LogOnly a b)
    (hbc : KafkaHook.LogOnly b c) : KafkaHook.LogOnly a c := by
  obtain ⟨e1, c1, t1, k1, l1⟩ := hab
  obtain ⟨e2, c2, t2, k2, l2⟩ := hbc
  refine ⟨e2.trans e1, c2.trans c1, t2.trans t1, ?_, fun h => l2 (l1 h)⟩
  intro ha
  have hb : b = a := k1 ha
  have hc : c = b := k2 (by rw [hb]; exact ha)
  rw [hc, hb]

theorem KafkaHook.Fire_logOnly (lib : Lib) (kh : KafkaHook) (entry : Entry) :
    KafkaHook.LogOnly kh (KafkaHook.Fire lib kh entry).kh := by
  rcases KafkaHook.Fire_kh lib kh entry with h | ⟨hc, hlt, m, h⟩
  · rw [h]
    exact KafkaHook.LogOnly_refl kh
  · rw [h]
    refine ⟨rfl, rfl, rfl, ?_, ?_⟩
    · intro hcl
      rw [hcl] at hc
      exact Bool.noConfusion hc
    · intro _
      simp
      omega

theorem fireKafka_logOnly (lib : Lib) :
    ∀ (n : Nat) (kh : KafkaHook) (entry : Entry),
      KafkaHook.LogOnly kh (Logger.fireKafka lib n kh entry)
  | 0, kh, _ => KafkaHook.LogOnly_refl kh
  | n + 1, kh, entry => by
    unfold Logger.fireKafka
    split
    · exact KafkaHook.Fire_logOnly lib kh entry
    · exact KafkaHook.LogOnly_trans _ _ _ (KafkaHook.Fire_logOnly lib kh entry)
        (fireKafka_logOnly lib n _ _)

/-- A logging call changes the hook at most in its log queue. -/
theorem Logf_logOnly (lib : Lib) (lg : Logger) (kh : KafkaHook) (call : LogCall)
    (level : Level) (msg : String) :
    KafkaHook.LogOnly kh (Logger.Logf lib lg kh call level msg) := by
  unfold Logger.Logf
  split
  · exact fireKafka_logOnly lib _ kh _
  · exact KafkaHook.LogOnly_refl kh

theorem Logf_eventChan (lib : Lib) (lg : Logger) (kh : KafkaHook) (call : LogCall)
    (level : Level) (msg : String) :
    (Logger.Logf lib lg kh call level msg).eventChan = kh.eventChan ∧
    (Logger.Logf lib lg kh call level msg).closing = kh.closing ∧
    (Logger.Logf lib lg kh call level msg).eventTopic = kh.eventTopic :=
  have h := Logf_logOnly lib lg kh call level msg
  ⟨h.1, h.2.1, h.2.2.1⟩

theorem Logf_of_closing (lib : Lib) (lg : Logger) (kh : KafkaHook) (call : LogCall)
    (level : Level) (msg : String) (hcl : kh.closing = true) :
    Logger.Logf lib lg kh call level msg = kh :=
  (Logf_logOnly lib lg kh call level msg).2.2.2.1 hcl

theorem Logf_logChan_le (lib : Lib) (lg : Logger) (kh : KafkaHook) (call : LogCall)
    (level : Level) (msg : String) (hle : kh.logChan.length ≤ kkLogChanSize) :
    (Logger.Logf lib lg kh call level msg).logChan.length ≤ kkLogChanSize :=
  (Logf_logOnly lib lg kh call level msg).2.2.2.2 hle

/-- What `FireEvent` does to the event queue: nothing, or one message appended
when the hook is not closing and the queue has room. -/
theorem KafkaHook.FireEvent_eventChan (lib : Lib) (lg : Logger) (kh : KafkaHook)
    (data : Fields) (call : LogCall) :
    (KafkaHook.FireEvent lib lg kh data call).kh.eventChan = kh.eventChan ∨
    (kh.closing = false ∧ kh.eventChan.length < kkEventChanSize ∧
      ∃ m, (KafkaHook.FireEvent lib lg kh data call).kh.eventChan = kh.eventChan ++ [m]) := by
  unfold KafkaHook.FireEvent
  dsimp only
  split
  · exact Or.inl (Logf_eventChan lib lg kh call _ _).1
  · rename_i bt _
    obtain ⟨he, hc, _⟩ := Logf_eventChan lib lg kh call DebugLevel
      ("sending log event: " ++ bt)
    split
    · exact Or.inl he
    · rename_i hcl
      split
      · rename_i hlen
        refine Or.inr ⟨?_, ?_, ⟨(Logger.Logf lib lg kh call DebugLevel
          ("sending log event: " ++ bt)).eventTopic, bt⟩, ?_⟩
        · rw [← hc]; simpa using hcl
        · rw [← he]; exact hlen
        · simp only [he]
      · exact Or.inl he

theorem KafkaHook.FireEvent_logChan_le (lib : Lib) (lg : Logger) (kh : KafkaHook)
    (data : Fields) (call : LogCall) (hle : kh.logChan.length ≤ kkLogChanSize) :
    (KafkaHook.FireEvent lib lg kh data call).kh.logChan.length ≤ kkLogChanSize := by
  unfold KafkaHook.FireEvent
  dsimp only
  split
  · exact Logf_logChan_le lib lg kh call _ _ hle
  · rename_i bt _
    have h := Logf_logChan_le lib lg kh call DebugLevel ("sending log event: " ++ bt) hle
    split
    · exact h
    · split
      · exact h
      · exact h

theorem KafkaHook.dispatchMessages.step_le (kh : KafkaHook) (p : Pick) :
    (KafkaHook.dispatchMessages.step kh p).eventChan.length ≤ kh.eventChan.length ∧
    (KafkaHook.dispatchMessages.step kh p).logChan.length ≤ kh.logChan.length ∧
    (KafkaHook.dispatchMessages.step kh p).closing = kh.closing := by
  unfold KafkaHook.dispatchMessages.step
  split
  · simp
  · split
    · split
      · simp
      · rename_i h; simp [h]
    · split
      · simp
      · rename_i h; simp [h]

/-- One operation keeps both queues within their capacity. -/
theorem KafkaHook.step_bounded (lib : Lib) (lg : Logger) (kh : KafkaHook) (op : Op)
    (he : kh.eventChan.length ≤ kkEventChanSize) (hl : kh.logChan.length ≤ kkLogChanSize) :
    (KafkaHook.step lib lg kh op).eventChan.length ≤ kkEventChanSize ∧
    (KafkaHook.step lib lg kh op).logChan.length ≤ kkLogChanSize := by
  cases op with
  | fireEvent data call =>
    refine ⟨?_, KafkaHook.FireEvent_logChan_le lib lg kh data call hl⟩
    show (KafkaHook.FireEvent lib lg kh data call).kh.eventChan.length ≤ kkEventChanSize
    rcases KafkaHook.FireEvent_eventChan lib lg kh data call with h | ⟨_, hlt, m, h⟩
    · rw [h]; exact he
    · rw [h]; simp; omega
  | fire entry =>
    show (KafkaHook.Fire lib kh entry).kh.eventChan.length ≤ kkEventChanSize ∧
      (KafkaHook.Fire lib kh entry).kh.logChan.length ≤ kkLogChanSize
    rcases KafkaHook.Fire_kh lib kh entry with h | ⟨_, hlt, m, h⟩
    · rw [h]; exact ⟨he, hl⟩
    · rw [h]; simp; omega
  | dispatch p =>
    obtain ⟨h1, h2, _⟩ := KafkaHook.dispatchMessages.step_le kh p
    exact ⟨le_trans h1 he, le_trans h2 hl⟩

theorem KafkaHook.run_bounded (lib : Lib) (lg : Logger) (ops : List Op) :
    ∀ kh : KafkaHook, kh.eventChan.length ≤ kkEventChanSize →
      kh.logChan.length ≤ kkLogChanSize →
      (KafkaHook.run lib lg kh ops).eventChan.length ≤ kkEventChanSize ∧
      (KafkaHook.run lib lg kh ops).logChan.length ≤ kkLogChanSize := by
  induction ops with
  | nil => intro kh he hl; exact ⟨he, hl⟩
  | cons op rest ih =>
    intro kh he hl
    obtain ⟨h1, h2⟩ := KafkaHook.step_bounded lib lg kh op he hl
    exact ih _ h1 h2

theorem KafkaHook.dispatch_closing (picks : List Pick) :
    ∀ kh : KafkaHook, (picks.foldl KafkaHook.dispatchMessages.step kh).closing = kh.closing := by
  induction picks with
  | nil => intro kh; rfl
  | cons p rest ih =>
    intro kh
    rw [List.foldl_cons, ih]
    exact (KafkaHook.dispatchMessages.step_le kh p).2.2

theorem KafkaHook.Close_closing (kh : KafkaHook) (picks : List Pick) :
    (KafkaHook.Close kh picks).kh.closing = true := by
  unfold KafkaHook.Close
  split
  · assumption
  · dsimp only
    have h := KafkaHook.dispatch_closing picks { kh with closing := true }
    split
    · exact h
    · exact h

theorem FireEvent_err (lib : Lib) (lg : Logger) (kh : KafkaHook) (data : Fields)
    (call : LogCall) :
    (KafkaHook.FireEvent lib lg kh data call).err =
      match formatJSON lib (KafkaHook.FireEvent.enrich kh data) with
      | .ok _ => none
      | .error err => some err := by
  unfold KafkaHook.FireEvent
  dsimp only
  cases hfmt : formatJSON lib (KafkaHook.FireEvent.enrich kh data) with
  | error e => rfl
  | ok bt =>
    dsimp only
    split
    · rfl
    · split <;> rfl

/-- The error `Fire` returns: nil without a producer, else the error of
`MarshalBinary`, else the error of the formatter, else nil. -/
theorem Fire_err_eq (lib : Lib) (kh : KafkaHook) (entry : Entry) :
    (KafkaHook.Fire lib kh entry).err =
      match kh.kkCli with
      | none => none
      | some _ =>
        match lib.MarshalBinary entry.Time with
        | some err => some err
        | none =>
          match kh.Formatter { entry with Data := KafkaHook.Fire.enrich kh entry.Data } with
          | .error err => some err
          | .ok _ => none := by
  unfold KafkaHook.Fire
  cases hcli : kh.kkCli with
  | none => rfl
  | some cli =>
    dsimp only
    cases hm : lib.MarshalBinary entry.Time with
    | some e => rfl
    | none =>
      dsimp only
      cases hf : kh.Formatter { entry with Data := KafkaHook.Fire.enrich kh entry.Data } with
      | error e => rfl
      | ok bt =>
        dsimp only
        split
        · rfl
        · split <;> rfl

theorem Fire_err (lib : Lib) (kh : KafkaHook) (entry : Entry)
    (h : (KafkaHook.Fire lib kh entry).err ≠ none) :
    lib.MarshalBinary entry.Time ≠ none ∨
    ∃ err, kh.Formatter { entry with Data := KafkaHook.Fire.enrich kh entry.Data } =
      .error err := by
  unfold KafkaHook.Fire at h
  split at h
  · exact absurd rfl h
  · split at h
    · rename_i e he
      left
      rw [he]
      simp
    · dsimp only at h
      split at h
      · rename_i e he
        exact Or.inr ⟨e, he⟩
      · split at h
        · exact absurd rfl h
        · split at h <;> exact absurd rfl h

/-! ## Lemmas on the caller location -/

theorem getCaller.trim_step (F back : List Char) (c : Char) (n : Nat) (hF : F ≠ []) :
    getCaller.trim (F ++ c :: back) F.length n =
      if c = '/' then
        if n + 1 = 2 then back else getCaller.trim (F ++ c :: back) (F.length - 1) (n + 1)
      else getCaller.trim (F ++ c :: back) (F.length - 1) n := by
  obtain ⟨m, hm⟩ : ∃ m, F.length = m + 1 := by
    cases F with
    | nil => exact absurd rfl hF
    | cons x xs => exact ⟨xs.length, rfl⟩
  have hidx : (F ++ c :: back)[m + 1]? = some c := by
    rw [List.getElem?_append_right (by omega)]
    simp [hm]
  have hdrop : (F ++ c :: back).drop (m + 2) = back := by
    have : m + 2 = F.length + 1 := by omega
    rw [this, List.drop_append]
    rfl
  rw [hm]
  conv => lhs; unfold getCaller.trim
  rw [hidx, hdrop]
  by_cases hc : c = '/'
  · simp [hc]
  · simp [hc]

theorem getCaller.trim_eq_scan :
    ∀ (rfront back : List Char) (n : Nat),
      getCaller.trim (rfront.reverse ++ back) (rfront.length - 1) n =
        getCaller.scan rfront back n
  | [], back, n => by simp [getCaller.trim, getCaller.scan]
  | [c], back, n => by simp [getCaller.trim, getCaller.scan]
  | c :: c2 :: rest, back, n => by
    have ih1 := getCaller.trim_eq_scan (c2 :: rest) (c :: back) (n + 1)
    have ih2 := getCaller.trim_eq_scan (c2 :: rest) (c :: back) n
    have hfile : (c :: c2 :: rest).reverse ++ back = (c2 :: rest).reverse ++ (c :: back) := by
      simp
    have hne : (c2 :: rest).reverse ≠ [] := by simp
    have hlen : (c :: c2 :: rest).length - 1 = ((c2 :: rest).reverse).length := by simp
    have hlen2 : (c2 :: rest).length - 1 = ((c2 :: rest).reverse).length - 1 := by simp
    rw [hlen2] at ih1 ih2
    rw [hfile, hlen, getCaller.trim_step _ _ _ _ hne, ih1, ih2]
    conv => rhs; unfold getCaller.scan
    simp

theorem getCaller.scan_of_no_slash :
    ∀ (u back : List Char) (n : Nat), '/' ∉ u → getCaller.scan u back n = u.reverse ++ back
  | [], back, n, _ => by simp [getCaller.scan]
  | c :: rest, back, n, h => by
    have hc : ¬ c = '/' := fun e => h (by simp [e])
    have hr : '/' ∉ rest := fun e => h (List.mem_cons_of_mem _ e)
    unfold getCaller.scan
    by_cases hrest : rest = []
    · simp [hrest]
    · simp [hrest, hc, getCaller.scan_of_no_slash rest (c :: back) n hr]

theorem getCaller.scan_skip :
    ∀ (u r back : List Char) (n : Nat), '/' ∉ u → r ≠ [] →
      getCaller.scan (u ++ r) back n = getCaller.scan r (u.reverse ++ back) n
  | [], r, back, n, _, _ => by simp
  | c :: rest, r, back, n, h, hr => by
    have hc : ¬ c = '/' := fun e => h (by simp [e])
    have hrest : '/' ∉ rest := fun e => h (List.mem_cons_of_mem _ e)
    have hne : rest ++ r ≠ [] := by simp [hr]
    rw [List.cons_append]
    conv => lhs; unfold getCaller.scan
    simp [hne, hc, getCaller.scan_skip rest r (c :: back) n hrest hr]

theorem pathComponents_ne_nil : ∀ p : List Char, pathComponents p ≠ []
  | [] => by simp [pathComponents]
  | c :: cs => by
    unfold pathComponents
    by_cases hc : c = '/'
    · simp [hc]
    · simp only [hc, if_false]
      split <;> simp

theorem pathComponents_of_no_slash : ∀ u : List Char, '/' ∉ u → pathComponents u = [u]
  | [], _ => by simp [pathComponents]
  | c :: cs, h => by
    have hc : ¬ c = '/' := fun e => h (by simp [e])
    have hr : '/' ∉ cs := fun e => h (List.mem_cons_of_mem _ e)
    unfold pathComponents
    simp [hc, pathComponents_of_no_slash cs hr]

theorem pathComponents_cons (c : Char) (cs : List Char) :
    pathComponents (c :: cs) =
      if c = '/' then [] :: pathComponents cs
      else
        match pathComponents cs with
        | [] => [[c]]
        | h :: t => (c :: h) :: t := by
  rw [pathComponents]

theorem pathComponents_append :
    ∀ p q : List Char,
      pathComponents (p ++ '/' :: q) = pathComponents p ++ pathComponents q
  | [], q => by
    rw [List.nil_append, pathComponents_cons]
    simp [pathComponents]
  | c :: cs, q => by
    have ih := pathComponents_append cs q
    rw [List.cons_append, pathComponents_cons, pathComponents_cons]
    by_cases hc : c = '/'
    · simp [hc, ih]
    · simp only [hc, if_false]
      rw [ih]
      cases hcs : pathComponents cs with
      | nil => exact absurd hcs (pathComponents_ne_nil cs)
      | cons h t => simp

theorem last_slash_split :
    ∀ p : List Char, '/' ∈ p → ∃ a b, p = a ++ '/' :: b ∧ '/' ∉ b
  | [], h => by simp at h
  | c :: rest, h => by
    by_cases hr : '/' ∈ rest
    · obtain ⟨a, b, hab, hb⟩ := last_slash_split rest hr
      exact ⟨c :: a, b, by simp [hab], hb⟩
    · have hc : c = '/' := by
        rcases List.mem_cons.mp h with e | e
        · exact e.symm
        · exact absurd e hr
      exact ⟨[], rest, by simp [hc], hr⟩

/-- The loop of `getCaller` trims a path to its last two components, unless the
second-to-last slash of the path is its first character. -/
theorem getCaller.trim_eq_lastTwoComponents (path : String)
    (hroot : secondSlashLeads path = false) :
    String.mk (getCaller.trim path.data (path.data.length - 1) 0) =
      lastTwoComponents path := by
  have hscan : getCaller.trim path.data (path.data.length - 1) 0 =
      getCaller.scan path.data.reverse [] 0 := by
    have h := getCaller.trim_eq_scan path.data.reverse [] 0
    simpa using h
  rw [hscan]
  unfold lastTwoComponents
  by_cases hA : '/' ∈ path.data
  · obtain ⟨a, b, hab, hb⟩ := last_slash_split path.data hA
    have hbr : '/' ∉ b.reverse := by simpa using hb
    by_cases hB : '/' ∈ a
    · obtain ⟨pre, dir, hpd, hdir⟩ := last_slash_split a hB
      have hdr : '/' ∉ dir.reverse := by simpa using hdir
      have hpre : pre ≠ [] := by
        intro e
        subst e
        have hdata : path.data = '/' :: (dir ++ '/' :: b) := by simp [hab, hpd]
        have hcount : (dir ++ '/' :: b).count '/' = 1 := by
          simp [List.count_append, List.count_cons, List.count_eq_zero_of_not_mem hdir,
            List.count_eq_zero_of_not_mem hb]
        unfold secondSlashLeads at hroot
        rw [hdata] at hroot
        simp [hcount] at hroot
      have hprer : pre.reverse ≠ [] := by simpa using hpre
      have hrev : path.data.reverse =
          b.reverse ++ ('/' :: (dir.reverse ++ ('/' :: pre.reverse))) := by
        simp [hab, hpd]
      have hcomp : (pathComponents path.data).reverse =
          b :: dir :: (pathComponents pre).reverse := by
        rw [hab, hpd, pathComponents_append, pathComponents_append,
          pathComponents_of_no_slash dir hdir, pathComponents_of_no_slash b hb]
        simp
      rw [hrev, hcomp, getCaller.scan_skip _ _ _ _ hbr (by simp)]
      conv => lhs; unfold getCaller.scan
      have hne1 : dir.reverse ++ '/' :: pre.reverse ≠ [] := by simp
      simp only [hne1, if_false, if_true]
      rw [if_neg (by decide), getCaller.scan_skip _ _ _ _ hdr (by simp)]
      conv => lhs; unfold getCaller.scan
      simp [hprer]
    · have har : '/' ∉ a.reverse := by simpa using hB
      have hrev : path.data.reverse = b.reverse ++ ('/' :: a.reverse) := by simp [hab]
      have hcomp : (pathComponents path.data).reverse = [b, a] := by
        rw [hab, pathComponents_append, pathComponents_of_no_slash a hB,
          pathComponents_of_no_slash b hb]
        simp
      rw [hrev, hcomp, getCaller.scan_skip _ _ _ _ hbr (by simp)]
      conv => lhs; unfold getCaller.scan
      by_cases hae : a.reverse = []
      · have : a = [] := by simpa using hae
        simp [hae, this]
      · simp only [hae, if_false, if_true]
        rw [if_neg (by decide), getCaller.scan_of_no_slash _ _ _ har]
        simp
  · have hr : '/' ∉ path.data.reverse := by simpa using hA
    rw [getCaller.scan_of_no_slash _ _ _ hr, pathComponents_of_no_slash _ hA]
    simp

theorem findCaller.loop_first :
    ∀ (stack : List Frame) (k fuel i : Nat) (cur : String × Int), k < fuel →
      (∀ j, j < k →
        strings.HasPrefix (getCaller stack (FileHookSkip + (i + j))).1 FileHookSkipPrefix
          = true) →
      strings.HasPrefix (getCaller stack (FileHookSkip + (i + k))).1 FileHookSkipPrefix
        = false →
      findCaller.loop stack fuel i cur = getCaller stack (FileHookSkip + (i + k))
  | _, _, 0, _, _, hk, _, _ => by omega
  | stack, 0, fuel + 1, i, cur, _, _, hlast => by
    rw [Nat.add_zero] at hlast
    unfold findCaller.loop
    simp [hlast]
  | stack, k + 1, fuel + 1, i, cur, hk, hskip, hlast => by
    have h0 := hskip 0 (Nat.succ_pos k)
    rw [Nat.add_zero] at h0
    have ih := findCaller.loop_first stack k fuel (i + 1)
      (getCaller stack (FileHookSkip + i)) (by omega)
      (fun j hj => by
        have := hskip (j + 1) (by omega)
        rwa [show i + (j + 1) = i + 1 + j by omega] at this)
      (by rwa [show i + (k + 1) = i + 1 + k by omega] at hlast)
    unfold findCaller.loop
    simp only [h0, Bool.not_true]
    rw [show i + (k + 1) = i + 1 + k by omega]
    simpa using ih

theorem getCaller_eq_lastTwoComponents (stack : List Frame) (skip : Nat) (fr : Frame)
    (hfr : stack[skip]? = some fr) (hroot : secondSlashLeads fr.file = false) :
    getCaller stack skip = (lastTwoComponents fr.file, fr.line) := by
  unfold getCaller runtime.Caller
  rw [hfr]
  show (String.mk (getCaller.trim fr.file.data (fr.file.data.length - 1) 0), fr.line) = _
  rw [getCaller.trim_eq_lastTwoComponents fr.file hroot]

theorem fileName_suffix (path : String) :
    (fileName path).data <:+ (lastTwoComponents path).data := by
  unfold fileName lastTwoComponents
  split
  · rename_i base rest heq
    cases rest with
    | nil => simp [heq]
    | cons dir more =>
      simp only [heq]
      exact ⟨dir ++ ['/'], by simp⟩
  · rename_i heq
    simp [heq]

/-! ## Theorems for the claims -/

/-- C1: for each of debug, info, warn, error, fatal and panic as minimum
severity `L`, `getHookLevels L` has no repetition and contains a level exactly
when it is `L` or more severe (numerically at most `L`); for warn the result is
warn, error, fatal, panic, without debug and info. -/
theorem getHookLevels_threshold (L : Level) (hL : L ∈ recognisedLevels) :
    (getHookLevels L).Nodup ∧
    (∀ l : Level, l ∈ getHookLevels L ↔ l ≤ L) ∧
    getHookLevels WarnLevel = [WarnLevel, ErrorLevel, FatalLevel, PanicLevel] ∧
    DebugLevel ∉ getHookLevels WarnLevel ∧ InfoLevel ∉ getHookLevels WarnLevel := by
  have hcases : L = 5 ∨ L = 4 ∨ L = 3 ∨ L = 2 ∨ L = 1 ∨ L = 0 := by
    simpa [recognisedLevels, DebugLevel, InfoLevel, WarnLevel, ErrorLevel, FatalLevel,
      PanicLevel] using hL
  refine ⟨?_, ?_, by decide, by decide, by decide⟩
  · rcases hcases with h | h | h | h | h | h <;> subst h <;> decide
  · intro l
    rcases hcases with h | h | h | h | h | h <;> subst h <;>
      simp [getHookLevels, getHookLevels.caseDebug, getHookLevels.caseInfo,
        getHookLevels.caseWarn, getHookLevels.caseError, getHookLevels.caseFatal,
        getHookLevels.casePanic, DebugLevel, InfoLevel, WarnLevel, ErrorLevel, FatalLevel,
        PanicLevel, Level] <;> omega

/-- Witness of C1 at the minimum severity info. -/
theorem getHookLevels_threshold_witness :
    InfoLevel ∈ recognisedLevels ∧
    ((getHookLevels InfoLevel).Nodup ∧
    (∀ l : Level, l ∈ getHookLevels InfoLevel ↔ l ≤ InfoLevel) ∧
    getHookLevels WarnLevel = [WarnLevel, ErrorLevel, FatalLevel, PanicLevel] ∧
    DebugLevel ∉ getHookLevels WarnLevel ∧ InfoLevel ∉ getHookLevels WarnLevel) :=
  ⟨by decide, getHookLevels_threshold InfoLevel (by decide)⟩

/-- C2: for every event map without the key "event_type", for both values of
`needFilter`, every value of the random draw and every state of the globals
(with or without an installed Kafka hook), `LogEvent` returns nil and changes
nothing: the globals, hence both queues, and the event map are as before. -/
theorem LogEvent_without_event_type (lib : Lib) (st : State) (data : Fields)
    (needFilter : Bool) (intn : Nat) (call : LogCall)
    (hno : Fields.has data "event_type" = false) :
    LogEvent lib st data needFilter intn call = { err := none, st := st, data := data } := by
  unfold LogEvent
  split
  · rfl
  · simp [hno]

/-- Witness of C2: a sampled event without "event_type" on a running hook. -/
theorem LogEvent_without_event_type_witness :
    Fields.has [("user", Value.str "u1")] "event_type" = false ∧
    LogEvent goLib demoState [("user", Value.str "u1")] true 0 demoCall =
      { err := none, st := demoState, data := [("user", Value.str "u1")] } :=
  ⟨by decide, LogEvent_without_event_type goLib demoState _ true 0 demoCall (by decide)⟩

/-- C3 fails as stated: with the log queue holding 2048 messages, `Fire` on an
entry that has a channel among its fields returns the formatter's error, not
nil. -/
theorem Fire_full_queue_returns_error :
    fullHook.logChan.length = 2048 ∧
    (KafkaHook.Fire goLib fullHook { demoEntry with Data := [("conn", Value.chan 0)] }).err =
      some "failed to marshal fields to JSON, json: unsupported type: chan int" :=
  ⟨List.length_replicate _ _, rfl⟩

/-- C3 as amended: `FireEvent` on a hook whose event queue holds 1024 messages
leaves the event queue as it is, and `Fire` on a hook whose log queue holds
2048 messages leaves the hook as it is; neither waits.  Each returns nil
unless serializing the message failed, and when it failed it returns that
error: `FireEvent` the error of `formatJSON`; `Fire`, on a hook with a
producer, the error of `MarshalBinary` or else of the formatter (without a
producer `Fire` returns nil before serializing).  After any sequence of
`FireEvent` calls, `Fire` calls and dispatch-loop iterations on a hook whose
queues are within capacity, the event queue holds at most 1024 and the log
queue at most 2048 messages. -/
theorem full_queue_drops (lib : Lib) (lg : Logger) (kh : KafkaHook) (data : Fields)
    (call : LogCall) (entry : Entry) (ops : List Op) :
    (kh.eventChan.length = kkEventChanSize →
      (KafkaHook.FireEvent lib lg kh data call).kh.eventChan = kh.eventChan ∧
      ((KafkaHook.FireEvent lib lg kh data call).err ≠ none →
        ∃ err, formatJSON lib (KafkaHook.FireEvent.enrich kh data) = .error err) ∧
      (∀ err, formatJSON lib (KafkaHook.FireEvent.enrich kh data) = .error err →
        (KafkaHook.FireEvent lib lg kh data call).err = some err) ∧
      (∀ bt, formatJSON lib (KafkaHook.FireEvent.enrich kh data) = .ok bt →
        (KafkaHook.FireEvent lib lg kh data call).err = none)) ∧
    (kh.logChan.length = kkLogChanSize →
      (KafkaHook.Fire lib kh entry).kh = kh ∧
      ((KafkaHook.Fire lib kh entry).err ≠ none →
        lib.MarshalBinary entry.Time ≠ none ∨
        ∃ err, kh.Formatter { entry with Data := KafkaHook.Fire.enrich kh entry.Data } =
          .error err) ∧
      (∀ err, kh.kkCli ≠ none → lib.MarshalBinary entry.Time = some err →
        (KafkaHook.Fire lib kh entry).err = some err) ∧
      (∀ err, kh.kkCli ≠ none → lib.MarshalBinary entry.Time = none →
        kh.Formatter { entry with Data := KafkaHook.Fire.enrich kh entry.Data } = .error err →
        (KafkaHook.Fire lib kh entry).err = some err) ∧
      (∀ bt, lib.MarshalBinary entry.Time = none →
        kh.Formatter { entry with Data := KafkaHook.Fire.enrich kh entry.Data } = .ok bt →
        (KafkaHook.Fire lib kh entry).err = none) ∧
      (kh.kkCli = none → (KafkaHook.Fire lib kh entry).err = none)) ∧
    (kh.eventChan.length ≤ kkEventChanSize → kh.logChan.length ≤ kkLogChanSize →
      (KafkaHook.run lib lg kh ops).eventChan.length ≤ 1024 ∧
      (KafkaHook.run lib lg kh ops).logChan.length ≤ 2048) := by
  refine ⟨?_, ?_, ?_⟩
  · intro hfull
    refine ⟨?_, ?_, ?_, ?_⟩
    · rcases KafkaHook.FireEvent_eventChan lib lg kh data call with h | ⟨_, hlt, _, _⟩
      · exact h
      · omega
    · intro herr
      rw [FireEvent_err] at herr
      split at herr
      · exact absurd rfl herr
      · rename_i e he
        exact ⟨e, he⟩
    · intro e he
      rw [FireEvent_err, he]
    · intro bt hbt
      rw [FireEvent_err, hbt]
  · intro hfull
    refine ⟨?_, Fire_err lib kh entry, ?_, ?_, ?_, ?_⟩
    · rcases KafkaHook.Fire_kh lib kh entry with h | ⟨_, hlt, _, _⟩
      · exact h
      · omega
    · intro e hcli hm
      rw [Fire_err_eq]
      cases hk : kh.kkCli with
      | none => exact absurd hk hcli
      | some cli => simp only [hm]
    · intro e hcli hm hf
      rw [Fire_err_eq]
      cases hk : kh.kkCli with
      | none => exact absurd hk hcli
      | some cli => simp only [hm, hf]
    · intro bt hm hf
      rw [Fire_err_eq]
      cases hk : kh.kkCli with
      | none => rfl
      | some cli => simp only [hm, hf]
    · intro hcli
      rw [Fire_err_eq, hcli]
  · intro he hl
    exact KafkaHook.run_bounded lib lg ops kh he hl

/-- Witness of the amended C3: a hook with both queues full, an event and an
entry that serialize, and an event and an entry that carry a channel. -/
theorem full_queue_drops_witness :
    fullHook.eventChan.length = kkEventChanSize ∧ fullHook.logChan.length = kkLogChanSize ∧
    (KafkaHook.FireEvent goLib demoLogger fullHook [("event_type", Value.str "x")]
      demoCall).kh.eventChan = fullHook.eventChan ∧
    (KafkaHook.FireEvent goLib demoLogger fullHook [("event_type", Value.str "x")]
      demoCall).err = none ∧
    (KafkaHook.Fire goLib fullHook demoEntry).kh = fullHook ∧
    (KafkaHook.Fire goLib fullHook demoEntry).err = none ∧
    (KafkaHook.FireEvent goLib demoLogger fullHook [("event_type", Value.chan 0)]
      demoCall).err =
      some "Failed to marshal fields to JSON, json: unsupported type: chan int\n" ∧
    (KafkaHook.Fire goLib fullHook { demoEntry with Data := [("conn", Value.chan 0)] }).kh =
      fullHook ∧
    (KafkaHook.run goLib demoLogger fullHook
      [Op.fireEvent [("event_type", Value.str "x")] demoCall, Op.fire demoEntry,
       Op.dispatch Pick.event]).eventChan.length ≤ 1024 :=
  have hE : fullHook.eventChan.length = kkEventChanSize := List.length_replicate _ _
  have hL : fullHook.logChan.length = kkLogChanSize := List.length_replicate _ _
  have h := full_queue_drops goLib demoLogger fullHook [("event_type", Value.str "x")]
    demoCall demoEntry [Op.fireEvent [("event_type", Value.str "x")] demoCall,
      Op.fire demoEntry, Op.dispatch Pick.event]
  have h2 := full_queue_drops goLib demoLogger fullHook [("event_type", Value.chan 0)]
    demoCall { demoEntry with Data := [("conn", Value.chan 0)] } []
  ⟨hE, hL, (h.1 hE).1, (h.1 hE).2.2.2 _ rfl, (h.2.1 hL).1, (h.2.1 hL).2.2.2.2.1 _ rfl rfl,
    (h2.1 hE).2.2.1 _ rfl, (h2.2.1 hL).1, (h.2.2 (le_of_eq hE) (le_of_eq hL)).1⟩

/-- C4: for every reloaded value and every state of the logger,
`OnReloadLogLevel` returns an error exactly when the value is not a string or
is a string that `ParseLevel` rejects, and then the globals (the logger level
among them) are unchanged; for a string that parses to `L` it returns nil and
the logger level becomes `L`, the hook staying as it is.  With the library
parser, "notalevel" is rejected and "info" sets the level info. -/
theorem OnReloadLogLevel_spec (lib : Lib) (st : State) (value : Value) :
    ((OnReloadLogLevel lib st value).1 ≠ none ↔
      (∀ s, value ≠ .str s) ∨ ∃ s err, value = .str s ∧ lib.ParseLevel s = .error err) ∧
    ((OnReloadLogLevel lib st value).1 ≠ none → (OnReloadLogLevel lib st value).2 = st) ∧
    (∀ s L, value = .str s → lib.ParseLevel s = .ok L →
      (OnReloadLogLevel lib st value).1 = none ∧
      (OnReloadLogLevel lib st value).2.Logger.Level = L ∧
      (OnReloadLogLevel lib st value).2.kkhook = st.kkhook) ∧
    ((OnReloadLogLevel goLib st (.str "notalevel")).1 ≠ none ∧
      (OnReloadLogLevel goLib st (.str "notalevel")).2 = st) ∧
    ((OnReloadLogLevel goLib st (.str "info")).1 = none ∧
      (OnReloadLogLevel goLib st (.str "info")).2.Logger.Level = InfoLevel) := by
  refine ⟨?_, ?_, ?_, ⟨by simp [OnReloadLogLevel, goLib, show logrus.ParseLevel "notalevel" =
      .error "not a valid logrus Level: notalevel" from rfl], rfl⟩, ⟨rfl, rfl⟩⟩
  · cases value with
    | str s =>
      cases hp : lib.ParseLevel s with
      | error e => simp [OnReloadLogLevel, hp]
      | ok L => simp [OnReloadLogLevel, hp]
    | int n => simp [OnReloadLogLevel]
    | bool b => simp [OnReloadLogLevel]
    | null => simp [OnReloadLogLevel]
    | chan c => simp [OnReloadLogLevel]
  · cases value with
    | str s =>
      cases hp : lib.ParseLevel s with
      | error e => simp [OnReloadLogLevel, hp]
      | ok L => simp [OnReloadLogLevel, hp]
    | int n => simp [OnReloadLogLevel]
    | bool b => simp [OnReloadLogLevel]
    | null => simp [OnReloadLogLevel]
    | chan c => simp [OnReloadLogLevel]
  · intro s L hv hp
    subst hv
    simp [OnReloadLogLevel, hp]

/-- Witness of C4: a non-string value, at level debug with a hook installed. -/
theorem OnReloadLogLevel_spec_witness :
    (OnReloadLogLevel goLib demoState (Value.int 4)).1 ≠ none ∧
    (OnReloadLogLevel goLib demoState (Value.int 4)).2 = demoState ∧
    (OnReloadLogLevel goLib demoState (Value.str "info")).2.Logger.Level = InfoLevel :=
  have h := OnReloadLogLevel_spec goLib demoState (Value.int 4)
  have hne : (OnReloadLogLevel goLib demoState (Value.int 4)).1 ≠ none :=
    h.1.2 (Or.inl (fun _ hs => Value.noConfusion hs))
  ⟨hne, h.2.1 hne, h.2.2.2.2.2⟩

/-- C5 fails as stated: on the hook of a freshly initialised pipeline the first
`Close` (and `GracefulStop`) returns, and a second one panics. -/
theorem Close_second_call_panics :
    (KafkaHook.Close demoHook []).panic = none ∧
    (KafkaHook.Close (KafkaHook.Close demoHook []).kh []).panic =
      some "close of closed channel" ∧
    (GracefulStop demoState []).panic = none ∧
    (GracefulStop (GracefulStop demoState []).st []).panic =
      some "close of closed channel" :=
  ⟨rfl, rfl, rfl, rfl⟩

/-- C5 as amended: shutdown is not idempotent.  A first `Close` on a hook that is
not closing and has a producer raises the closing signal and returns; on every
hook on which `Close` has run, whatever the dispatch loop did meanwhile,
another `Close` or `GracefulStop` panics on closing the closed channel and
leaves the hook as it was, so the signal is raised once only. -/
theorem Close_not_idempotent (lg : Logger) (kh : KafkaHook) (picks again : List Pick) :
    (kh.closing = false → kh.kkCli ≠ none →
      (KafkaHook.Close kh picks).panic = none ∧ (KafkaHook.Close kh picks).kh.closing = true) ∧
    KafkaHook.Close (KafkaHook.Close kh picks).kh again =
      { panic := some "close of closed channel", kh := (KafkaHook.Close kh picks).kh } ∧
    (GracefulStop { Logger := lg, kkhook := some (KafkaHook.Close kh picks).kh } again).panic =
      some "close of closed channel" ∧
    (GracefulStop { Logger := lg, kkhook := some (KafkaHook.Close kh picks).kh } again).st.kkhook =
      some (KafkaHook.Close kh picks).kh := by
  have hc := KafkaHook.Close_closing kh picks
  have h2 : KafkaHook.Close (KafkaHook.Close kh picks).kh again =
      { panic := some "close of closed channel", kh := (KafkaHook.Close kh picks).kh } := by
    generalize (KafkaHook.Close kh picks).kh = kh1 at hc ⊢
    simp [KafkaHook.Close, hc]
  refine ⟨?_, h2, ?_, ?_⟩
  · intro hrun hcli
    refine ⟨?_, hc⟩
    unfold KafkaHook.Close
    rw [if_neg (by simp [hrun])]
    dsimp only
    have hk : ∀ (ps : List Pick) (k : KafkaHook), k.kkCli ≠ none →
        (ps.foldl KafkaHook.dispatchMessages.step k).kkCli ≠ none := by
      intro ps
      induction ps with
      | nil => intro k hk; exact hk
      | cons p rest ih =>
        intro k hk
        rw [List.foldl_cons]
        apply ih
        unfold KafkaHook.dispatchMessages.step
        split
        · exact hk
        · split <;> split <;> simp_all
    have hsome := hk picks { kh with closing := true } hcli
    cases hk2 : (picks.foldl KafkaHook.dispatchMessages.step { kh with closing := true }).kkCli with
    | none => exact absurd hk2 hsome
    | some cli => rfl
  · simp [GracefulStop, h2]
  · simp [GracefulStop, h2]

/-- Witness of the amended C5 on a freshly initialised hook. -/
theorem Close_not_idempotent_witness :
    demoHook.closing = false ∧ demoHook.kkCli ≠ none ∧
    (KafkaHook.Close demoHook [Pick.event]).panic = none ∧
    (KafkaHook.Close demoHook [Pick.event]).kh.closing = true ∧
    (KafkaHook.Close (KafkaHook.Close demoHook [Pick.event]).kh []).panic =
      some "close of closed channel" :=
  have h := Close_not_idempotent demoLogger demoHook [Pick.event] []
  have h1 := h.1 rfl (by decide)
  ⟨rfl, by decide, h1.1, h1.2, congrArg CloseResult.panic h.2.1⟩

/-- C6 fails as stated: on a hook whose closing signal is raised, `FireEvent` on
an event that has a channel among its values returns an error, not nil. -/
theorem FireEvent_closing_returns_error :
    closingHook.closing = true ∧
    (KafkaHook.FireEvent goLib demoLogger closingHook
      [("event_type", Value.str "login"), ("conn", Value.chan 0)] demoCall).err =
      some "Failed to marshal fields to JSON, json: unsupported type: chan int\n" :=
  ⟨rfl, rfl⟩

/-- C6 as amended: on a hook whose closing signal is raised, `FireEvent` and
`Fire` leave the hook, and so both queues, exactly as they were, whether or
not a queue has room.  Each returns nil unless serializing the message
failed, and when it failed it returns that error: `FireEvent` the error of
`formatJSON`; `Fire`, on a hook with a producer, the error of `MarshalBinary`
or else of the formatter (without a producer `Fire` returns nil before
serializing). -/
theorem closing_accepts_nothing (lib : Lib) (lg : Logger) (kh : KafkaHook) (data : Fields)
    (call : LogCall) (entry : Entry) (hcl : kh.closing = true) :
    (KafkaHook.FireEvent lib lg kh data call).kh = kh ∧
    ((KafkaHook.FireEvent lib lg kh data call).err ≠ none →
      ∃ err, formatJSON lib (KafkaHook.FireEvent.enrich kh data) = .error err) ∧
    (KafkaHook.Fire lib kh entry).kh = kh ∧
    ((KafkaHook.Fire lib kh entry).err ≠ none →
      lib.MarshalBinary entry.Time ≠ none ∨
      ∃ err, kh.Formatter { entry with Data := KafkaHook.Fire.enrich kh entry.Data } =
        .error err) ∧
    (∀ err, formatJSON lib (KafkaHook.FireEvent.enrich kh data) = .error err →
      (KafkaHook.FireEvent lib lg kh data call).err = some err) ∧
    (∀ bt, formatJSON lib (KafkaHook.FireEvent.enrich kh data) = .ok bt →
      (KafkaHook.FireEvent lib lg kh data call).err = none) ∧
    (∀ err, kh.kkCli ≠ none → lib.MarshalBinary entry.Time = some err →
      (KafkaHook.Fire lib kh entry).err = some err) ∧
    (∀ err, kh.kkCli ≠ none → lib.MarshalBinary entry.Time = none →
      kh.Formatter { entry with Data := KafkaHook.Fire.enrich kh entry.Data } = .error err →
      (KafkaHook.Fire lib kh entry).err = some err) ∧
    (∀ bt, lib.MarshalBinary entry.Time = none →
      kh.Formatter { entry with Data := KafkaHook.Fire.enrich kh entry.Data } = .ok bt →
      (KafkaHook.Fire lib kh entry).err = none) ∧
    (kh.kkCli = none → (KafkaHook.Fire lib kh entry).err = none) := by
  refine ⟨?_, ?_, ?_, Fire_err lib kh entry, ?_, ?_, ?_, ?_, ?_, ?_⟩
  · unfold KafkaHook.FireEvent
    dsimp only
    split
    · exact Logf_of_closing lib lg kh call _ _ hcl
    · rw [Logf_of_closing lib lg kh call _ _ hcl]
      simp [hcl]
  · intro herr
    rw [FireEvent_err] at herr
    split at herr
    · exact absurd rfl herr
    · rename_i e he
      exact ⟨e, he⟩
  · rcases KafkaHook.Fire_kh lib kh entry with h | ⟨hc, _, _, _⟩
    · exact h
    · rw [hcl] at hc
      exact Bool.noConfusion hc
  · intro e he
    rw [FireEvent_err, he]
  · intro bt hbt
    rw [FireEvent_err, hbt]
  · intro e hcli hm
    rw [Fire_err_eq]
    cases hk : kh.kkCli with
    | none => exact absurd hk hcli
    | some cli => simp only [hm]
  · intro e hcli hm hf
    rw [Fire_err_eq]
    cases hk : kh.kkCli with
    | none => exact absurd hk hcli
    | some cli => simp only [hm, hf]
  · intro bt hm hf
    rw [Fire_err_eq]
    cases hk : kh.kkCli with
    | none => rfl
    | some cli => simp only [hm, hf]
  · intro hcli
    rw [Fire_err_eq, hcli]

/-- Witness of the amended C6: on a closing hook with empty queues, an event and
an entry that serialize, and an entry that carries a channel. -/
theorem closing_accepts_nothing_witness :
    closingHook.closing = true ∧
    (KafkaHook.FireEvent goLib demoLogger closingHook [("event_type", Value.str "x")]
      demoCall).kh = closingHook ∧
    (KafkaHook.FireEvent goLib demoLogger closingHook [("event_type", Value.str "x")]
      demoCall).err = none ∧
    (KafkaHook.Fire goLib closingHook demoEntry).kh = closingHook ∧
    (KafkaHook.Fire goLib closingHook demoEntry).err = none ∧
    (KafkaHook.Fire goLib closingHook { demoEntry with Data := [("conn", Value.chan 0)] }).kh =
      closingHook ∧
    (KafkaHook.Fire goLib closingHook { demoEntry with Data := [("conn", Value.chan 0)] }).err =
      some "failed to marshal fields to JSON, json: unsupported type: chan int" :=
  have h := closing_accepts_nothing goLib demoLogger closingHook
    [("event_type", Value.str "x")] demoCall demoEntry rfl
  have h2 := closing_accepts_nothing goLib demoLogger closingHook
    [("event_type", Value.str "x")] demoCall
    { demoEntry with Data := [("conn", Value.chan 0)] } rfl
  ⟨rfl, h.1, h.2.2.2.2.2.1 _ rfl, h.2.2.1, h.2.2.2.2.2.2.2.2.1 _ rfl rfl, h2.2.2.1,
    h2.2.2.2.2.2.2.2.1 _ (by decide) rfl rfl⟩

/-- C7, the code at the failing input: when the logging engine is built from the
top-level directory `/logrus`, the five frames from depth 5 up to the caller
lie in a directory named logrus and their paths trimmed to the last two
components start with "logrus", and the caller `main.go:20` at depth 10 is
the first frame whose trimmed path does not.  The claim asks for
`app/main.go:20`; `findCaller` returns `/logrus/entry.go:241`, the untrimmed
location of the frame at depth 5, because the loop of `getCaller` stops
before index 0 and never sees the leading slash.  The "file" field then does
not end with the caller's file name and line, which is what
`TestLoggerCaller` asserts of it. -/
theorem findCaller_root_directory :
    rootStack[5]? = some ⟨"/logrus/entry.go", 241⟩ ∧
    lastTwoComponents "/logrus/entry.go" = "logrus/entry.go" ∧
    ((rootStack.drop 5).take 5).all
      (fun f => strings.HasPrefix (lastTwoComponents f.file) "logrus") = true ∧
    rootStack[10]? = some ⟨"/home/dev/app/main.go", 20⟩ ∧
    strings.HasPrefix (lastTwoComponents "/home/dev/app/main.go") "logrus" = false ∧
    findCaller rootStack = "/logrus/entry.go:241" ∧
    findCaller rootStack ≠
      lastTwoComponents "/home/dev/app/main.go" ++ ":" ++ toString (20 : Int) ∧
    Fields.get (FileHook.Fire NewFileHook rootStack demoEntry).2.Data "file" =
      some (Value.str "/logrus/entry.go:241") ∧
    ¬ ("main.go:20".data <:+ (findCaller rootStack).data) := by
  decide

/-- Away from that input `findCaller` finds the caller: let the frame at depth
`5 + k`, `k < 10`, be the caller, let every frame between depth 5 and the
caller have a path whose last two components (directory/file) start with
"logrus" while the caller's do not, and let none of these paths have its
second-to-last slash as first character.  Then `findCaller` returns the
caller's path trimmed to its last two components, a colon and the caller's
line; `FileHook.Fire` stores that in the "file" field and returns nil; and the
stored value ends with the caller's file name, a colon and the line. -/
theorem findCaller_first_outside_logrus (stack : List Frame) (k : Nat) (caller : Frame)
    (entry : Entry) (hk : k < 10) (hcaller : stack[5 + k]? = some caller)
    (hskip : ∀ j f, j < k → stack[5 + j]? = some f →
      strings.HasPrefix (lastTwoComponents f.file) "logrus" = true)
    (hown : strings.HasPrefix (lastTwoComponents caller.file) "logrus" = false)
    (hroot : ∀ j f, j ≤ k → stack[5 + j]? = some f → secondSlashLeads f.file = false) :
    findCaller stack = lastTwoComponents caller.file ++ ":" ++ toString caller.line ∧
    (FileHook.Fire NewFileHook stack entry).1 = none ∧
    Fields.get (FileHook.Fire NewFileHook stack entry).2.Data "file" =
      some (.str (lastTwoComponents caller.file ++ ":" ++ toString caller.line)) ∧
    (fileName caller.file ++ ":" ++ toString caller.line).data <:+
      (lastTwoComponents caller.file ++ ":" ++ toString caller.line).data := by
  have hget : ∀ j, j < k → ∃ f, stack[5 + j]? = some f := by
    intro j hj
    have hlt : 5 + k < stack.length := by
      by_contra hge
      rw [List.getElem?_eq_none (by omega)] at hcaller
      exact Option.noConfusion hcaller
    exact ⟨stack[5 + j], List.getElem?_eq_getElem (by omega)⟩
  have hloop : findCaller.loop stack 10 0 ("", 0) = (lastTwoComponents caller.file, caller.line) := by
    rw [findCaller.loop_first stack k 10 0 ("", 0) hk]
    · rw [Nat.zero_add]
      exact getCaller_eq_lastTwoComponents stack _ caller hcaller (hroot k caller le_rfl hcaller)
    · intro j hj
      obtain ⟨f, hf⟩ := hget j hj
      rw [Nat.zero_add]
      show strings.HasPrefix (getCaller stack (5 + j)).1 "logrus" = true
      rw [getCaller_eq_lastTwoComponents stack _ f hf (hroot j f (le_of_lt hj) hf)]
      exact hskip j f hj hf
    · rw [Nat.zero_add]
      show strings.HasPrefix (getCaller stack (5 + k)).1 "logrus" = false
      rw [getCaller_eq_lastTwoComponents stack _ caller hcaller (hroot k caller le_rfl hcaller)]
      exact hown
  have hfind : findCaller stack =
      lastTwoComponents caller.file ++ ":" ++ toString caller.line := by
    unfold findCaller
    rw [hloop]
  refine ⟨hfind, rfl, ?_, ?_⟩
  · show Fields.get (Fields.set entry.Data "file" (.str (findCaller stack))) "file" = _
    rw [Fields.get_set_self, hfind]
  · obtain ⟨t, ht⟩ := fileName_suffix caller.file
    refine ⟨t, ?_⟩
    simp only [String.data_append]
    rw [← ht]
    simp

/-- The run of `TestLoggerCaller`: `Logger.Errorf` called at `main.go:20` through
the seven frames of logrus. -/
theorem findCaller_first_outside_logrus_witness :
    demoStack[5 + 5]? = some ⟨"/home/dev/app/main.go", 20⟩ ∧
    findCaller demoStack = "app/main.go:20" ∧
    Fields.get (FileHook.Fire NewFileHook demoStack demoEntry).2.Data "file" =
      some (Value.str "app/main.go:20") ∧
    "main.go:20".data <:+ "app/main.go:20".data :=
  have h := findCaller_first_outside_logrus demoStack 5 ⟨"/home/dev/app/main.go", 20⟩
    demoEntry (by decide) rfl
    (fun j f hj hf => by
      have hcases : j = 0 ∨ j = 1 ∨ j = 2 ∨ j = 3 ∨ j = 4 := by omega
      rcases hcases with e | e | e | e | e <;> subst e <;>
        (cases Option.some.inj hf; decide))
    (by decide)
    (fun j f hj hf => by
      have hcases : j = 0 ∨ j = 1 ∨ j = 2 ∨ j = 3 ∨ j = 4 ∨ j = 5 := by omega
      rcases hcases with e | e | e | e | e | e <;> subst e <;>
        (cases Option.some.inj hf; decide))
  ⟨rfl, h.1, h.2.2.1, h.2.2.2⟩

/-- C8, the code at the failing input: trace is a level of the logger, a member
of `logrus.AllLevels`, and has no `case` in `getHookLevels`.  The claim asks
that every level be enabled for it; `getHookLevels` returns debug, info,
warn, error, fatal and panic, without trace, although each of the six cases
returns the level it is given. -/
theorem getHookLevels_trace_missing :
    TraceLevel ∉ recognisedLevels ∧ TraceLevel ∈ AllLevels ∧
    getHookLevels TraceLevel =
      [DebugLevel, InfoLevel, WarnLevel, ErrorLevel, FatalLevel, PanicLevel] ∧
    TraceLevel ∉ getHookLevels TraceLevel ∧
    AllLevels.all (fun l => decide (l ∈ getHookLevels TraceLevel)) = false ∧
    recognisedLevels.all (fun L => decide (L ∈ getHookLevels L)) = true := by
  decide

/-- C9: the map `FireEvent` hands to `formatJSON` and the map `Fire` hands to the
formatter fill gaps only: host, process and nodename keep the caller's value
when present and get the hook's `hostName`, `processName`, `nodeName`
otherwise, and every other key reads as the caller supplied it.  These maps
are what gets serialized: when serialization succeeds on a hook that is not
closing and has room, the message appended to the queue carries the bytes
produced from them. -/
theorem enrichment_fills_gaps (lib : Lib) (lg : Logger) (kh : KafkaHook) (data : Fields)
    (call : LogCall) (entry : Entry) :
    FillsGaps kh data (KafkaHook.FireEvent.enrich kh data) ∧
    FillsGaps kh entry.Data (KafkaHook.Fire.enrich kh entry.Data) ∧
    (∀ bt, formatJSON lib (KafkaHook.FireEvent.enrich kh data) = .ok bt →
      kh.closing = false → kh.eventChan.length < kkEventChanSize →
      (KafkaHook.FireEvent lib lg kh data call).kh.eventChan =
        kh.eventChan ++ [{ Topic := kh.eventTopic, Value := bt }]) ∧
    (∀ bt, kh.kkCli ≠ none → lib.MarshalBinary entry.Time = none →
      kh.Formatter { entry with Data := KafkaHook.Fire.enrich kh entry.Data } = .ok bt →
      kh.closing = false → kh.logChan.length < kkLogChanSize →
      (KafkaHook.Fire lib kh entry).kh.logChan =
        kh.logChan ++ [{ Topic := kh.logTopic, Value := bt }]) := by
  refine ⟨?_, ?_, ?_, ?_⟩
  · exact FillsGaps_of_get kh data _ (FireEvent_enrich_get kh data)
  · apply FillsGaps_of_get kh entry.Data _
    intro key
    rw [Fire_enrich_get]
    by_cases h : Fields.has entry.Data key = true
    · simp [h]
    · by_cases k1 : key = "nodename"
      · subst k1; simp [h]
      · by_cases k2 : key = "host"
        · subst k2; simp [h]
        · simp [h, k1, k2]
  · intro bt hfmt hcl hlen
    obtain ⟨he, hc, ht⟩ := Logf_eventChan lib lg kh call DebugLevel
      ("sending log event: " ++ bt)
    unfold KafkaHook.FireEvent
    dsimp only
    rw [hfmt]
    dsimp only
    simp [hc, hcl, he, hlen, ht]
  · intro bt hcli hm hfmt hcl hlen
    unfold KafkaHook.Fire
    split
    · rename_i hnone
      exact absurd hnone hcli
    · rw [hm]
      dsimp only
      rw [hfmt]
      simp [hcl, hlen]

/-- Witness of C9: an event that brings its own host, and an entry without
identity fields, on a running hook with room. -/
theorem enrichment_fills_gaps_witness :
    FillsGaps demoHook [("event_type", Value.str "x"), ("host", Value.str "mine")]
      (KafkaHook.FireEvent.enrich demoHook
        [("event_type", Value.str "x"), ("host", Value.str "mine")]) ∧
    KafkaHook.FireEvent.enrich demoHook
        [("event_type", Value.str "x"), ("host", Value.str "mine")] =
      [("event_type", Value.str "x"), ("host", Value.str "mine"),
       ("process", Value.str "server"), ("nodename", Value.str "node-1")] ∧
    KafkaHook.Fire.enrich demoHook demoEntry.Data =
      [("user", Value.str "u1"), ("nodename", Value.str "node-1"),
       ("host", Value.str "host-1"), ("process", Value.str "server")] ∧
    (KafkaHook.Fire goLib demoHook demoEntry).kh.logChan.map (fun m => m.Topic) = ["log"] :=
  have h := enrichment_fills_gaps goLib demoLogger demoHook
    [("event_type", Value.str "x"), ("host", Value.str "mine")] demoCall demoEntry
  ⟨h.1, by decide, by decide,
    by rw [h.2.2.2 _ (by decide) rfl rfl rfl (by decide)]; rfl⟩

/-- C10 fails as stated: on a stack without a frame at depth 5 `findCaller`
returns ":0", which is not the empty string. -/
theorem findCaller_shallow_not_empty :
    runtime.Caller [] FileHookSkip = none ∧ findCaller [] = ":0" ∧ findCaller [] ≠ "" := by
  decide

/-- C10 as amended: whenever the call stack has no frame at depth 5,
`findCaller` does not fail and returns ":0", the empty file name with line 0,
and `FileHook.Fire` stores that in the "file" field and returns nil. -/
theorem findCaller_shallow_stack (stack : List Frame) (entry : Entry)
    (hnone : runtime.Caller stack FileHookSkip = none) :
    findCaller stack = ":0" ∧
    FileHook.Fire NewFileHook stack entry =
      (none, { entry with Data := Fields.set entry.Data "file" (.str ":0") }) := by
  have hget : getCaller stack (FileHookSkip + 0) = ("", 0) := by
    unfold getCaller
    rw [Nat.add_zero, hnone]
  have hfind : findCaller stack = ":0" := by
    have hp : strings.HasPrefix "" FileHookSkipPrefix = false := by decide
    unfold findCaller findCaller.loop
    simp only [hget, hp, Bool.not_false, if_true]
    decide
  refine ⟨hfind, ?_⟩
  unfold FileHook.Fire
  rw [hfind]
  rfl

/-- Witness of the amended C10: a stack of three frames. -/
theorem findCaller_shallow_stack_witness :
    runtime.Caller shallowStack FileHookSkip = none ∧ findCaller shallowStack = ":0" :=
  ⟨rfl, (findCaller_shallow_stack shallowStack demoEntry rfl).1⟩

end Clog
